import Mathlib

/-!
Shallow embedding of `blockservice/blockservice.go` (the block-retrieval and
write orchestrator).  External collaborators (the block store, the exchange,
the provider and the hash allowlist) are modelled as behaviour oracles stored
in the `BlockService` record, and every call the orchestrator makes to a
collaborator is recorded in an event trace, so that "no store or exchange
interaction" style properties can be stated as facts about the trace.
-/

namespace BoxoBlockservice

/-- Content identifiers (`cid.Cid`), abstracted to a countable key type. -/
abbrev Cid := Nat

/-- A block (`blocks.Block`): a content identifier plus a raw payload. -/
structure Block where
  cid : Cid
  payload : List Nat
deriving DecidableEq

/-- Error values an operation can surface. -/
inductive Err where
  | rejectedHash (c : Cid)
  | storeFail (n : Nat)
  | fetchFail (n : Nat)
  | notifyFail (n : Nat)
  | provideFail (n : Nat)
deriving DecidableEq

/-- Outcome of `blockstore.Get`: a block, an error satisfying
`ipld.IsNotFound`, or any other error. -/
inductive GetOutcome where
  | found (b : Block)
  | notFound (e : Err)
  | fail (e : Err)
deriving DecidableEq

/-- One collaborator call made by the orchestrator.  `validate` is a call to
`verifcid.ValidateCid`; `has`/`storeGet`/`storePut`/`storeDelete` are block
store calls; `fetchFactoryCall` records an invocation of the fetch-provider
closure (`fetchFactory()`); `fetchOne`/`fetchMany` are exchange fetches;
`notify` is `NotifyNewBlocks`; `provide` is `provider.Provide`. -/
inductive Event where
  | validate (c : Cid)
  | has (c : Cid)
  | storeGet (c : Cid)
  | storePut (b : Block)
  | fetchFactoryCall
  | fetchOne (c : Cid)
  | fetchMany (cs : List Cid)
  | notify (bs : List Block)
  | provide (c : Cid)
  | storeDelete (c : Cid)
deriving DecidableEq

/-- The `blockService` struct together with the behaviour of its
collaborators for the duration of one call.  `hasExchange` is
`s.exchange != nil`, `hasProvider` is `s.provider != nil`, `fetchAvail` is
whether the fetcher returned by the fetch factory is non-nil.  `hasRes c` is
the `(bool, error)` pair returned by `blockstore.Has`; the remaining fields
give the results of the other collaborator calls. -/
structure BlockService where
  allowlist : Cid → Bool
  checkFirst : Bool
  hasExchange : Bool
  hasProvider : Bool
  fetchAvail : Bool
  hasRes : Cid → Bool × Option Err
  getRes : Cid → GetOutcome
  putRes : Block → Option Err
  deleteRes : Cid → Option Err
  notifyRes : List Block → Option Err
  provideRes : Cid → Option Err
  fetchOneRes : Cid → Except Err Block
  fetchManyRes : List Cid → Except Err (List Block)

/-- Modelled from the spec: `verifcid.ValidateCid` (the Identifier
Validator, whose source is not under src/) checks the identifier against the
Allowlist and returns ok, or the RejectedHash error when the policy rejects
it: `validate(identifier) -> ok | RejectedHash`. -/
def validateCid (allow : Cid → Bool) (c : Cid) : Option Err :=
  if allow c then none else some (Err.rejectedHash c)

/-- The `if s.exchange != nil { s.exchange.NotifyNewBlocks(...) }` step:
result of the notify call (if any) plus the events it generates. -/
def notifyStep (s : BlockService) (b : Block) : Option Err × List Event :=
  if s.hasExchange then (s.notifyRes [b], [Event.notify [b]]) else (none, [])

/-- The `if provider != nil { provider.Provide(b.Cid()) }` step. -/
def provideStep (s : BlockService) (b : Block) : Option Err × List Event :=
  if s.hasProvider then (s.provideRes b.cid, [Event.provide b.cid]) else (none, [])

/-- Tail of `AddBlock` after validation and the optional `Has` check: `Put`,
then best-effort notify and provide (their errors are logged, not
returned). -/
def addBlockPut (s : BlockService) (o : Block) (tr : List Event) :
    Option Err × List Event :=
  match s.putRes o with
  | some e => (some e, tr ++ [Event.storePut o])
  | none =>
      (none, tr ++ [Event.storePut o] ++ (notifyStep s o).2 ++ (provideStep s o).2)

/-- `(*blockService).AddBlock`: validate (hash security), optionally check
existence first (`s.checkFirst`), then put, notify, provide.  Returns the
error result together with the trace of collaborator calls. -/
def addBlock (s : BlockService) (o : Block) : Option Err × List Event :=
  match validateCid s.allowlist o.cid with
  | some e => (some e, [Event.validate o.cid])
  | none =>
      if s.checkFirst then
        let h := s.hasRes o.cid
        if h.1 || h.2.isSome then (h.2, [Event.validate o.cid, Event.has o.cid])
        else addBlockPut s o [Event.validate o.cid, Event.has o.cid]
      else addBlockPut s o [Event.validate o.cid]

/-- `getBlock` (the common body behind `(*blockService).GetBlock` and
`(*Session).GetBlock`): validate, try the local store, and on a not-found
miss call the fetch factory; if a fetcher is available, fetch from the
network, write the block back, notify the exchange and provide, propagating
every error. -/
def getBlock (s : BlockService) (c : Cid) : Except Err Block × List Event :=
  match validateCid s.allowlist c with
  | some e => (Except.error e, [Event.validate c])
  | none =>
      match s.getRes c with
      | GetOutcome.found b =>
          (Except.ok b, [Event.validate c, Event.storeGet c])
      | GetOutcome.fail e =>
          (Except.error e, [Event.validate c, Event.storeGet c])
      | GetOutcome.notFound e =>
          let tr0 := [Event.validate c, Event.storeGet c, Event.fetchFactoryCall]
          if s.fetchAvail then
            match s.fetchOneRes c with
            | Except.error fe => (Except.error fe, tr0 ++ [Event.fetchOne c])
            | Except.ok blk =>
                let tr1 := tr0 ++ [Event.fetchOne c]
                match s.putRes blk with
                | some pe => (Except.error pe, tr1 ++ [Event.storePut blk])
                | none =>
                    let tr2 := tr1 ++ [Event.storePut blk]
                    match notifyStep s blk with
                    | (some ne, trN) => (Except.error ne, tr2 ++ trN)
                    | (none, trN) =>
                        match provideStep s blk with
                        | (some pe, trP) => (Except.error pe, tr2 ++ trN ++ trP)
                        | (none, trP) => (Except.ok blk, tr2 ++ trN ++ trP)
          else (Except.error e, tr0)

/-- `(*blockService).DeleteBlock`: a direct pass-through to
`blockstore.DeleteBlock`, with no validation and no notification. -/
def deleteBlock (s : BlockService) (c : Cid) : Option Err × List Event :=
  (s.deleteRes c, [Event.storeDelete c])

/-- First validation loop of `getBlocks`:
`for lastAllValidIndex, c = range ks { if ValidateCid(c) != nil { break } }`.
The loop variable `lastAllValidIndex` is declared outside the loop, so when
the loop completes without a break over a nonempty slice it is left at the
last assigned index (`len(ks)-1`), and at `0` when `ks` is empty (the Nat
truncated subtraction `i - 1` at the base case reproduces exactly this: the
argument `i` is the index the next iteration would assign).  Returns the
final value of `lastAllValidIndex` and the validation calls made. -/
def validateScan (allow : Cid → Bool) (i : Nat) : List Cid → Nat × List Event
  | [] => (i - 1, [])
  | c :: rest =>
      if allow c then
        let p := validateScan allow (i + 1) rest
        (p.1, Event.validate c :: p.2)
      else (i, [Event.validate c])

/-- Second (salvage) loop of `getBlocks`\x27 validation phase:
`for _, c := range ks[lastAllValidIndex:]` keeps the identifiers that pass
`ValidateCid` and drops (logs) the rest. -/
def salvageScan (allow : Cid → Bool) : List Cid → List Cid × List Event
  | [] => ([], [])
  | c :: rest =>
      let p := salvageScan allow rest
      if allow c then (c :: p.1, Event.validate c :: p.2)
      else (p.1, Event.validate c :: p.2)

/-- The whole validation phase of `getBlocks`: run the first scan; if
`lastAllValidIndex != len(ks)`, rebuild `ks` as the already-scanned prefix
`ks[:lastAllValidIndex]` plus the salvage of `ks[lastAllValidIndex:]`.
Returns the filtered identifier list and the validation-call trace. -/
def validatePhase (allow : Cid → Bool) (ks : List Cid) : List Cid × List Event :=
  let p := validateScan allow 0 ks
  if p.1 ≠ ks.length then
    let q := salvageScan allow (ks.drop p.1)
    (ks.take p.1 ++ q.1, p.2 ++ q.2)
  else (ks, p.2)

/-- Result of the local phase of `getBlocks`. -/
structure LocalRes where
  emitted : List Block
  misses : List Cid
  trace : List Event
deriving DecidableEq

/-- Local phase of `getBlocks`: for each identifier, `bs.Get`; any error
makes it a miss (`misses = append(misses, c); continue`), a hit is emitted
immediately on the output channel. -/
def localPhase (s : BlockService) : List Cid → LocalRes
  | [] => ⟨[], [], []⟩
  | c :: rest =>
      let r := localPhase s rest
      match s.getRes c with
      | GetOutcome.found b => ⟨b :: r.emitted, r.misses, Event.storeGet c :: r.trace⟩
      | GetOutcome.notFound _ => ⟨r.emitted, c :: r.misses, Event.storeGet c :: r.trace⟩
      | GetOutcome.fail _ => ⟨r.emitted, c :: r.misses, Event.storeGet c :: r.trace⟩

/-- Result of the network-consumption loop (and of `getBlocks` overall):
the blocks emitted on the output channel and the collaborator-call trace. -/
structure StreamRes where
  emitted : List Block
  trace : List Event
deriving DecidableEq

/-- Network-consumption loop of `getBlocks`: for each block arriving from
`fetch.GetBlocks`, write it to the store (a failure returns, ending the
stream), notify the exchange if present (a failure returns), provide if a
provider is present (a failure returns), then emit the block. -/
def networkConsume (s : BlockService) : List Block → StreamRes
  | [] => ⟨[], []⟩
  | b :: rest =>
      match s.putRes b with
      | some _ => ⟨[], [Event.storePut b]⟩
      | none =>
          match notifyStep s b with
          | (some _, trN) => ⟨[], Event.storePut b :: trN⟩
          | (none, trN) =>
              match provideStep s b with
              | (some _, trP) => ⟨[], Event.storePut b :: (trN ++ trP)⟩
              | (none, trP) =>
                  let r := networkConsume s rest
                  ⟨b :: r.emitted, Event.storePut b :: (trN ++ (trP ++ r.trace))⟩

/-- `getBlocks` (the goroutine body behind `(*blockService).GetBlocks` and
`(*Session).GetBlocks`), with the emitted channel values collected into a
list: validation phase, local phase, then the unconditional
`fetch := fetchFactory()` followed by the
`if len(misses) == 0 || fetch == nil { return }` check, the batched network
fetch, and the network-consumption loop. -/
def getBlocks (s : BlockService) (ks : List Cid) : StreamRes :=
  let v := validatePhase s.allowlist ks
  let l := localPhase s v.1
  let tr := v.2 ++ l.trace ++ [Event.fetchFactoryCall]
  if l.misses.isEmpty || !s.fetchAvail then ⟨l.emitted, tr⟩
  else
    match s.fetchManyRes l.misses with
    | Except.error _ => ⟨l.emitted, tr ++ [Event.fetchMany l.misses]⟩
    | Except.ok arriving =>
        let n := networkConsume s arriving
        ⟨l.emitted ++ n.emitted, tr ++ [Event.fetchMany l.misses] ++ n.trace⟩

/-- Modelled from the spec: the Block Store contract\x27s existence check
(`has(id) -> bool|err`, here never erroring): a block with identifier `c`
is present exactly when some stored block carries that identifier.  The
store itself (`github.com/ipfs/boxo/blockstore`) is not under src/. -/
def storeHasState (st : List Block) (c : Cid) : Bool :=
  st.any fun b => b.cid == c

/-- Modelled from the spec: replaying the store writes (`put(block)`) of a
trace onto a store state; every other collaborator call leaves the store
unchanged. -/
def applyTrace (st : List Block) : List Event → List Block
  | [] => st
  | Event.storePut b :: tr => applyTrace (b :: st) tr
  | _ :: tr => applyTrace st tr

/-- A `blockService` whose `Has` and `Put` oracles are induced by an
explicit store state: `Has` reports membership and never errors, `Put`
always succeeds. -/
def serviceOfState (base : BlockService) (st : List Block) : BlockService :=
  { base with
      hasRes := fun c => (storeHasState st c, none)
      putRes := fun _ => none }

/-- Is the event a block store write? -/
def isPutEvent : Event → Bool
  | Event.storePut _ => true
  | _ => false

/-- Is the event an exchange notification? -/
def isNotifyEvent : Event → Bool
  | Event.notify _ => true
  | _ => false

/-- Is the event a provider advertisement? -/
def isProvideEvent : Event → Bool
  | Event.provide _ => true
  | _ => false

/-- Is the event a validation call? -/
def isValidateEvent : Event → Bool
  | Event.validate _ => true
  | _ => false

/-- Is the event a batched network fetch? -/
def isFetchManyEvent : Event → Bool
  | Event.fetchMany _ => true
  | _ => false

/-- Is the event any block store or exchange/provider interaction (anything
except a validation call)? -/
def isInteraction (e : Event) : Bool :=
  !isValidateEvent e

def countPut (tr : List Event) : Nat := tr.countP isPutEvent

def countNotify (tr : List Event) : Nat := tr.countP isNotifyEvent

def countProvide (tr : List Event) : Nat := tr.countP isProvideEvent

def countValidate (tr : List Event) : Nat := tr.countP isValidateEvent

def countFetchMany (tr : List Event) : Nat := tr.countP isFetchManyEvent

def countInteraction (tr : List Event) : Nat := tr.countP isInteraction

/-- Did `blockstore.Get` return a block? -/
def isFound : GetOutcome → Bool
  | GetOutcome.found _ => true
  | _ => false

/-- The block a local `Get` would produce, if any. -/
def hitOf (s : BlockService) (c : Cid) : Option Block :=
  match s.getRes c with
  | GetOutcome.found b => some b
  | _ => none

/-! ### Characterization lemmas for the `getBlocks` phases -/

theorem validateScan_all_valid (allow : Cid → Bool) (i : Nat) (ks : List Cid)
    (h : ∀ c ∈ ks, allow c = true) :
    validateScan allow i ks = (i + ks.length - 1, ks.map Event.validate) := by
  induction ks generalizing i with
  | nil => simp [validateScan]
  | cons c rest ih =>
      have hc : allow c = true := h c (List.mem_cons_self c rest)
      have hrest : ∀ x ∈ rest, allow x = true := fun x hx => h x (List.mem_cons_of_mem c hx)
      simp only [validateScan, hc, if_true, ih (i + 1) hrest, List.length_cons, List.map_cons]
      have harith : i + 1 + rest.length - 1 = i + (rest.length + 1) - 1 := by omega
      rw [harith]

theorem validateScan_break (allow : Cid → Bool) (i : Nat) (pre : List Cid)
    (c : Cid) (post : List Cid) (hpre : ∀ x ∈ pre, allow x = true)
    (hc : allow c = false) :
    validateScan allow i (pre ++ c :: post) =
      (i + pre.length, (pre ++ [c]).map Event.validate) := by
  induction pre generalizing i with
  | nil => simp [validateScan, hc]
  | cons a rest ih =>
      have ha : allow a = true := hpre a (List.mem_cons_self a rest)
      have hrest : ∀ x ∈ rest, allow x = true := fun x hx => hpre x (List.mem_cons_of_mem a hx)
      simp only [List.cons_append, validateScan, ha, if_true, List.append_eq,
        ih (i + 1) hrest, List.length_cons, List.map_cons]
      have harith : i + 1 + rest.length = i + (rest.length + 1) := by omega
      rw [harith]

theorem salvageScan_eq (allow : Cid → Bool) (ks : List Cid) :
    salvageScan allow ks = (ks.filter allow, ks.map Event.validate) := by
  induction ks with
  | nil => simp [salvageScan]
  | cons c rest ih =>
      by_cases hc : allow c
      · simp [salvageScan, ih, hc, List.filter_cons]
      · simp [salvageScan, ih, hc, List.filter_cons]

theorem exists_first_invalid (allow : Cid → Bool) (ks : List Cid)
    (h : ¬ ∀ c ∈ ks, allow c = true) :
    ∃ pre c post, ks = pre ++ c :: post ∧ (∀ x ∈ pre, allow x = true) ∧
      allow c = false := by
  induction ks with
  | nil => exact absurd (by simp) h
  | cons a rest ih =>
      by_cases ha : allow a
      · have hrest : ¬ ∀ c ∈ rest, allow c = true := by
          intro hall
          exact h (by
            intro c hc
            rcases List.mem_cons.mp hc with h1 | h2
            · simpa [h1] using ha
            · exact hall c h2)
        obtain ⟨pre, c, post, heq, hpre, hc⟩ := ih hrest
        refine ⟨a :: pre, c, post, by simp [heq], ?_, hc⟩
        intro x hx
        rcases List.mem_cons.mp hx with h1 | h2
        · simpa [h1] using ha
        · exact hpre x h2
      · exact ⟨[], a, rest, by simp, by simp, by simpa using ha⟩

theorem take_append_filter_drop (allow : Cid → Bool) (ks : List Cid) (i : Nat)
    (h : ∀ x ∈ ks.take i, allow x = true) :
    ks.take i ++ (ks.drop i).filter allow = ks.filter allow := by
  conv_rhs => rw [← List.take_append_drop i ks]
  rw [List.filter_append, List.filter_eq_self.mpr h]

theorem validatePhase_eq_filter (allow : Cid → Bool) (ks : List Cid) :
    (validatePhase allow ks).1 = ks.filter allow := by
  by_cases hall : ∀ c ∈ ks, allow c = true
  · cases ks with
    | nil => simp [validatePhase, validateScan]
    | cons k rest =>
        have hscan := validateScan_all_valid allow 0 (k :: rest) hall
        have hne : ¬ ((validateScan allow 0 (k :: rest)).1 = (k :: rest).length) := by
          rw [hscan]
          simp only [List.length_cons]
          omega
        rw [validatePhase, if_pos (by simpa using hne)]
        simp only [salvageScan_eq]
        exact take_append_filter_drop allow (k :: rest) _
          (fun x hx => hall x (List.mem_of_mem_take hx))
  · obtain ⟨pre, c, post, heq, hpre, hc⟩ := exists_first_invalid allow ks hall
    subst heq
    have hscan := validateScan_break allow 0 pre c post hpre hc
    have hne : ¬ ((validateScan allow 0 (pre ++ c :: post)).1 = (pre ++ c :: post).length) := by
      rw [hscan]
      simp only [List.length_append, List.length_cons]
      omega
    rw [validatePhase, if_pos (by simpa using hne)]
    simp only [salvageScan_eq]
    refine take_append_filter_drop allow (pre ++ c :: post) _ ?_
    intro x hx
    have hx2 : x ∈ (pre ++ c :: post).take pre.length := by
      have h01 : (validateScan allow 0 (pre ++ c :: post)).1 = pre.length := by
        rw [hscan]
        simp
      rwa [h01] at hx
    rw [List.take_left] at hx2
    exact hpre x hx2

theorem localPhase_misses (s : BlockService) (ks : List Cid) :
    (localPhase s ks).misses = ks.filter fun c => !isFound (s.getRes c) := by
  induction ks with
  | nil => simp [localPhase]
  | cons c rest ih =>
      cases h : s.getRes c with
      | found b => simp [localPhase, h, ih, List.filter_cons, isFound]
      | notFound e => simp [localPhase, h, ih, List.filter_cons, isFound]
      | fail e => simp [localPhase, h, ih, List.filter_cons, isFound]

theorem localPhase_emitted (s : BlockService) (ks : List Cid) :
    (localPhase s ks).emitted = ks.filterMap (hitOf s) := by
  induction ks with
  | nil => simp [localPhase]
  | cons c rest ih =>
      cases h : s.getRes c with
      | found b => simp [localPhase, h, ih, List.filterMap_cons, hitOf]
      | notFound e => simp [localPhase, h, ih, List.filterMap_cons, hitOf]
      | fail e => simp [localPhase, h, ih, List.filterMap_cons, hitOf]

theorem localPhase_trace (s : BlockService) (ks : List Cid) :
    (localPhase s ks).trace = ks.map Event.storeGet := by
  induction ks with
  | nil => simp [localPhase]
  | cons c rest ih =>
      cases h : s.getRes c with
      | found b => simp [localPhase, h, ih]
      | notFound e => simp [localPhase, h, ih]
      | fail e => simp [localPhase, h, ih]

/-- A concrete collaborator behaviour used to instantiate theorems on
explicit inputs: identifier 9 is the only one the Allowlist rejects, the
store is empty (every Get reports not-found), every collaborator call
succeeds, and the network serves a block whose payload repeats its key. -/
def baseSvc : BlockService where
  allowlist := fun c => c != 9
  checkFirst := true
  hasExchange := true
  hasProvider := true
  fetchAvail := true
  hasRes := fun _ => (false, none)
  getRes := fun _ => GetOutcome.notFound (Err.storeFail 0)
  putRes := fun _ => none
  deleteRes := fun _ => none
  notifyRes := fun _ => none
  provideRes := fun _ => none
  fetchOneRes := fun c => Except.ok ⟨c, [c]⟩
  fetchManyRes := fun cs => Except.ok (cs.map fun c => ⟨c, [c]⟩)

/-- C1: for every content identifier rejected by the Allowlist, `AddBlock`
(`addOne`) and `GetBlock` (`getOne`) return the RejectedHash error and their
traces contain no block store or exchange interaction — no Has, Get, Put,
fetch, notify or provide call is made. -/
theorem rejected_cid_no_interaction (s : BlockService) (o : Block) (c : Cid)
    (ho : s.allowlist o.cid = false) (hc : s.allowlist c = false) :
    addBlock s o = (some (Err.rejectedHash o.cid), [Event.validate o.cid]) ∧
    getBlock s c = (Except.error (Err.rejectedHash c), [Event.validate c]) ∧
    countInteraction (addBlock s o).2 = 0 ∧
    countInteraction (getBlock s c).2 = 0 := by
  have ha : addBlock s o = (some (Err.rejectedHash o.cid), [Event.validate o.cid]) := by
    simp [addBlock, validateCid, ho]
  have hg : getBlock s c = (Except.error (Err.rejectedHash c), [Event.validate c]) := by
    simp [getBlock, validateCid, hc]
  refine ⟨ha, hg, ?_, ?_⟩
  · rw [ha]
    simp [countInteraction, isInteraction, isValidateEvent]
  · rw [hg]
    simp [countInteraction, isInteraction, isValidateEvent]

theorem rejected_cid_no_interaction_witness :
    addBlock baseSvc ⟨9, []⟩ = (some (Err.rejectedHash 9), [Event.validate 9]) ∧
    getBlock baseSvc 9 = (Except.error (Err.rejectedHash 9), [Event.validate 9]) ∧
    countInteraction (addBlock baseSvc ⟨9, []⟩).2 = 0 ∧
    countInteraction (getBlock baseSvc 9).2 = 0 :=
  rejected_cid_no_interaction baseSvc ⟨9, []⟩ 9 (by decide) (by decide)

/-- C2 (code bug in `getBlocks`): the claim says the salvage pass runs only
if the first scan found an invalid identifier.  In the code the loop
variable `lastAllValidIndex` is left at `len(ks)-1` (not `len(ks)`) when the
first scan completes without a break over a nonempty slice, so
`lastAllValidIndex != len(ks)` also holds when every identifier is valid and
the salvage pass re-validates the final identifier: on the all-valid input
`[0]` the lone identifier is validated twice (the filtered output is still
correct). -/
theorem getBlocks_second_pass_on_all_valid :
    validatePhase (fun _ => true) [0] = ([0], [Event.validate 0, Event.validate 0]) ∧
    countValidate (validatePhase (fun _ => true) [0]).2 = 2 := by
  constructor
  · rfl
  · rfl

/-- C5: a `getOne` miss resolved through the Exchange performs exactly one
local store write, one exchange notification and one advertisement, and
returns exactly the fetched block. -/
theorem getBlock_fetch_success (s : BlockService) (c : Cid) (e : Err) (blk : Block)
    (hv : s.allowlist c = true) (hg : s.getRes c = GetOutcome.notFound e)
    (hf : s.fetchAvail = true) (hfetch : s.fetchOneRes c = Except.ok blk)
    (hput : s.putRes blk = none) (hex : s.hasExchange = true)
    (hnotify : s.notifyRes [blk] = none) (hprov : s.hasProvider = true)
    (hprovide : s.provideRes blk.cid = none) :
    (getBlock s c).1 = Except.ok blk ∧
    countPut (getBlock s c).2 = 1 ∧
    countNotify (getBlock s c).2 = 1 ∧
    countProvide (getBlock s c).2 = 1 := by
  have h : getBlock s c = (Except.ok blk,
      [Event.validate c, Event.storeGet c, Event.fetchFactoryCall, Event.fetchOne c,
        Event.storePut blk, Event.notify [blk], Event.provide blk.cid]) := by
    simp [getBlock, validateCid, hv, hg, hf, hfetch, hput, notifyStep, hex, hnotify,
      provideStep, hprov, hprovide]
  rw [h]
  refine ⟨rfl, ?_, ?_, ?_⟩ <;>
    simp [countPut, countNotify, countProvide, List.countP_cons, isPutEvent,
      isNotifyEvent, isProvideEvent]

theorem getBlock_fetch_success_witness :
    (getBlock baseSvc 3).1 = Except.ok ⟨3, [3]⟩ ∧
    countPut (getBlock baseSvc 3).2 = 1 ∧
    countNotify (getBlock baseSvc 3).2 = 1 ∧
    countProvide (getBlock baseSvc 3).2 = 1 :=
  getBlock_fetch_success baseSvc 3 (Err.storeFail 0) ⟨3, [3]⟩ rfl rfl
    rfl rfl rfl rfl rfl rfl rfl

/-- C8: a valid identifier whose local lookup reports not-found, in a
service whose fetch factory yields no fetcher (no Exchange configured),
makes `getOne` return the original not-found outcome unchanged. -/
theorem getBlock_notFound_no_exchange (s : BlockService) (c : Cid) (e : Err)
    (hv : s.allowlist c = true) (hg : s.getRes c = GetOutcome.notFound e)
    (hf : s.fetchAvail = false) :
    getBlock s c =
      (Except.error e, [Event.validate c, Event.storeGet c, Event.fetchFactoryCall]) := by
  simp [getBlock, validateCid, hv, hg, hf]

theorem getBlock_notFound_no_exchange_witness :
    getBlock { baseSvc with fetchAvail := false, hasExchange := false } 4 =
      (Except.error (Err.storeFail 0),
        [Event.validate 4, Event.storeGet 4, Event.fetchFactoryCall]) :=
  getBlock_notFound_no_exchange { baseSvc with fetchAvail := false, hasExchange := false }
    4 (Err.storeFail 0) (by decide) (by decide) (by decide)

/-- C9: for every identifier — including ones the Allowlist rejects —
`DeleteBlock` performs no validation and no notification: it makes exactly
the one store delete call and returns its result unchanged. -/
theorem deleteBlock_passthrough (s : BlockService) (c : Cid) :
    deleteBlock s c = (s.deleteRes c, [Event.storeDelete c]) ∧
    countValidate (deleteBlock s c).2 = 0 ∧
    countNotify (deleteBlock s c).2 = 0 ∧
    countProvide (deleteBlock s c).2 = 0 := by
  refine ⟨rfl, ?_, ?_, ?_⟩ <;>
    simp [deleteBlock, countValidate, countNotify, countProvide, isValidateEvent,
      isNotifyEvent, isProvideEvent]

/-- C3: in the batch local phase a store failure on `Get` is tolerated — the
identifier becomes a miss and the remaining identifiers are processed
exactly as before — and the misses (when a fetcher is available) are handed
to the batched network fetch; whereas a `Put` failure while writing back a
network-sourced block terminates the stream at once: nothing further is
emitted. -/
theorem getBlocks_store_error_policy :
    (∀ (s : BlockService) (c : Cid) (e : Err) (rest : List Cid),
      s.getRes c = GetOutcome.fail e →
      localPhase s (c :: rest) =
        ⟨(localPhase s rest).emitted, c :: (localPhase s rest).misses,
          Event.storeGet c :: (localPhase s rest).trace⟩) ∧
    (∀ (s : BlockService) (ks : List Cid),
      s.fetchAvail = true →
      (localPhase s (validatePhase s.allowlist ks).1).misses ≠ [] →
      Event.fetchMany (localPhase s (validatePhase s.allowlist ks).1).misses ∈
        (getBlocks s ks).trace) ∧
    (∀ (s : BlockService) (b : Block) (e : Err) (rest : List Block),
      s.putRes b = some e →
      networkConsume s (b :: rest) = ⟨[], [Event.storePut b]⟩) := by
  refine ⟨?_, ?_, ?_⟩
  · intro s c e rest h
    simp [localPhase, h]
  · intro s ks hf hne
    have hempty : (localPhase s (validatePhase s.allowlist ks).1).misses.isEmpty = false := by
      simpa [List.isEmpty_iff] using hne
    simp only [getBlocks, hf, hempty, Bool.not_true, Bool.or_false, Bool.false_or]
    cases hfm : s.fetchManyRes (localPhase s (validatePhase s.allowlist ks).1).misses with
    | error e => simp
    | ok arriving => simp
  · intro s b e rest h
    simp [networkConsume, h]

/-- `baseSvc` with a store whose `Get` fails outright on identifier 5. -/
def getFailSvc : BlockService :=
  { baseSvc with getRes := fun c =>
      if c == 5 then GetOutcome.fail (Err.storeFail 1)
      else GetOutcome.notFound (Err.storeFail 0) }

/-- `baseSvc` with a store whose `Put` always fails. -/
def putFailSvc : BlockService :=
  { baseSvc with putRes := fun _ => some (Err.storeFail 2) }

theorem getBlocks_store_error_policy_witness :
    localPhase getFailSvc (5 :: [6]) =
      ⟨(localPhase getFailSvc [6]).emitted, 5 :: (localPhase getFailSvc [6]).misses,
        Event.storeGet 5 :: (localPhase getFailSvc [6]).trace⟩ ∧
    Event.fetchMany (localPhase baseSvc (validatePhase baseSvc.allowlist [1, 2]).1).misses ∈
      (getBlocks baseSvc [1, 2]).trace ∧
    networkConsume putFailSvc (⟨1, [1]⟩ :: []) = ⟨[], [Event.storePut ⟨1, [1]⟩]⟩ :=
  ⟨getBlocks_store_error_policy.1 getFailSvc 5 (Err.storeFail 1) [6] (by decide),
    getBlocks_store_error_policy.2.1 baseSvc [1, 2] (by decide) (by decide),
    getBlocks_store_error_policy.2.2 putFailSvc ⟨1, [1]⟩ (Err.storeFail 2) [] (by decide)⟩

/-- C4: in the network-consumption phase, after a successful write-back of a
network-sourced block, a failing exchange notification, or a failing
advertisement, terminates the stream at once: the failing block and every
later arrival are never emitted. -/
theorem getBlocks_notify_provide_failure_terminates :
    (∀ (s : BlockService) (b : Block) (e : Err) (rest : List Block),
      s.putRes b = none → s.hasExchange = true → s.notifyRes [b] = some e →
      networkConsume s (b :: rest) = ⟨[], [Event.storePut b, Event.notify [b]]⟩) ∧
    (∀ (s : BlockService) (b : Block) (e : Err) (rest : List Block),
      s.putRes b = none → (notifyStep s b).1 = none → s.hasProvider = true →
      s.provideRes b.cid = some e →
      networkConsume s (b :: rest) =
        ⟨[], Event.storePut b :: ((notifyStep s b).2 ++ [Event.provide b.cid])⟩) := by
  constructor
  · intro s b e rest hput hex hn
    simp [networkConsume, hput, notifyStep, hex, hn]
  · intro s b e rest hput hn hprov hpr
    have hns : notifyStep s b = (none, (notifyStep s b).2) := by
      rw [← hn]
    rw [networkConsume, hput]
    rw [hns]
    simp [provideStep, hprov, hpr]

/-- `baseSvc` with an exchange whose notification always fails. -/
def notifyFailSvc : BlockService :=
  { baseSvc with notifyRes := fun _ => some (Err.notifyFail 1) }

/-- `baseSvc` with a provider whose advertisement always fails. -/
def provideFailSvc : BlockService :=
  { baseSvc with provideRes := fun _ => some (Err.provideFail 1) }

theorem getBlocks_notify_provide_failure_terminates_witness :
    networkConsume notifyFailSvc (⟨1, [1]⟩ :: [⟨2, [2]⟩]) =
      ⟨[], [Event.storePut ⟨1, [1]⟩, Event.notify [⟨1, [1]⟩]]⟩ ∧
    networkConsume provideFailSvc (⟨1, [1]⟩ :: [⟨2, [2]⟩]) =
      ⟨[], Event.storePut ⟨1, [1]⟩ ::
        ((notifyStep provideFailSvc ⟨1, [1]⟩).2 ++ [Event.provide 1])⟩ :=
  ⟨getBlocks_notify_provide_failure_terminates.1 notifyFailSvc ⟨1, [1]⟩ (Err.notifyFail 1)
      [⟨2, [2]⟩] (by decide) (by decide) (by decide),
    getBlocks_notify_provide_failure_terminates.2 provideFailSvc ⟨1, [1]⟩ (Err.provideFail 1)
      [⟨2, [2]⟩] (by decide) (by decide) (by decide) (by decide)⟩

/-- C10 (implicit): the validation filter of `getBlocks` preserves the
caller\x27s relative order — the identifier list handed to the local phase is
exactly the Allowlist-accepted subsequence of the input, in input order —
and the local phase emits its hits in that same order. -/
theorem getBlocks_filter_order (s : BlockService) (ks : List Cid) :
    (validatePhase s.allowlist ks).1 = ks.filter s.allowlist ∧
    ((validatePhase s.allowlist ks).1).Sublist ks ∧
    (localPhase s (validatePhase s.allowlist ks).1).emitted =
      (ks.filter s.allowlist).filterMap (hitOf s) := by
  refine ⟨validatePhase_eq_filter s.allowlist ks, ?_, ?_⟩
  · rw [validatePhase_eq_filter]
    exact List.filter_sublist ks
  · rw [validatePhase_eq_filter, localPhase_emitted]

theorem countFetchMany_validateScan (allow : Cid → Bool) (i : Nat) (ks : List Cid) :
    countFetchMany (validateScan allow i ks).2 = 0 := by
  induction ks generalizing i with
  | nil => simp [validateScan, countFetchMany]
  | cons c rest ih =>
      by_cases hc : allow c
      · simp [validateScan, hc, countFetchMany, List.countP_cons, isFetchManyEvent]
        simpa [countFetchMany] using ih (i + 1)
      · simp [validateScan, hc, countFetchMany, List.countP_cons, isFetchManyEvent]

theorem countFetchMany_map_validate (l : List Cid) :
    countFetchMany (l.map Event.validate) = 0 := by
  simp [countFetchMany, List.countP_eq_zero, isFetchManyEvent]

theorem countFetchMany_map_storeGet (l : List Cid) :
    countFetchMany (l.map Event.storeGet) = 0 := by
  simp [countFetchMany, List.countP_eq_zero, isFetchManyEvent]

theorem countFetchMany_validatePhase (allow : Cid → Bool) (ks : List Cid) :
    countFetchMany (validatePhase allow ks).2 = 0 := by
  rw [validatePhase]
  split
  · simp only [salvageScan_eq, countFetchMany, List.countP_append]
    have h1 := countFetchMany_validateScan allow 0 ks
    have h2 := countFetchMany_map_validate (ks.drop (validateScan allow 0 ks).1)
    simp [countFetchMany] at h1 h2
    simp [List.countP_eq_zero]
    constructor
    · exact h1
    · intro a ha
      exact h2 a (by simpa using ha)
  · exact countFetchMany_validateScan allow 0 ks

/-- C6: with check-before-write enabled, adding a block whose identifier the
store already holds is a pure success — no write, no notify, no provide —
and adding the same block twice against a store that records the writes of
the first call performs exactly one store write and at most one
notify/provide pair over both calls together. -/
theorem addBlock_idempotent :
    (∀ (s : BlockService) (o : Block),
      s.checkFirst = true → s.allowlist o.cid = true → s.hasRes o.cid = (true, none) →
      addBlock s o = (none, [Event.validate o.cid, Event.has o.cid])) ∧
    (∀ (base : BlockService) (st : List Block) (o : Block),
      base.checkFirst = true → base.allowlist o.cid = true →
      storeHasState st o.cid = false →
      countPut ((addBlock (serviceOfState base st) o).2 ++
          (addBlock (serviceOfState base
            (applyTrace st (addBlock (serviceOfState base st) o).2)) o).2) = 1 ∧
      countNotify ((addBlock (serviceOfState base st) o).2 ++
          (addBlock (serviceOfState base
            (applyTrace st (addBlock (serviceOfState base st) o).2)) o).2) ≤ 1 ∧
      countProvide ((addBlock (serviceOfState base st) o).2 ++
          (addBlock (serviceOfState base
            (applyTrace st (addBlock (serviceOfState base st) o).2)) o).2) ≤ 1) := by
  constructor
  · intro s o hcf hal hhas
    simp [addBlock, validateCid, hal, hcf, hhas]
  · intro base st o hcf hal hst
    have hst2 : storeHasState (o :: st) o.cid = true := by
      simp [storeHasState]
    cases hex : base.hasExchange <;> cases hpr : base.hasProvider <;>
      simp [addBlock, addBlockPut, validateCid, serviceOfState, notifyStep, provideStep,
        applyTrace, hal, hcf, hst, hst2, hex, hpr, countPut, countNotify, countProvide,
        List.countP_cons, List.countP_append, isPutEvent, isNotifyEvent, isProvideEvent]

/-- `baseSvc` with a store that reports every identifier as present. -/
def hasAllSvc : BlockService :=
  { baseSvc with hasRes := fun _ => (true, none) }

theorem addBlock_idempotent_witness :
    addBlock hasAllSvc ⟨2, []⟩ = (none, [Event.validate 2, Event.has 2]) ∧
    (countPut ((addBlock (serviceOfState baseSvc []) ⟨2, [2]⟩).2 ++
        (addBlock (serviceOfState baseSvc
          (applyTrace [] (addBlock (serviceOfState baseSvc []) ⟨2, [2]⟩).2)) ⟨2, [2]⟩).2) = 1 ∧
      countNotify ((addBlock (serviceOfState baseSvc []) ⟨2, [2]⟩).2 ++
        (addBlock (serviceOfState baseSvc
          (applyTrace [] (addBlock (serviceOfState baseSvc []) ⟨2, [2]⟩).2)) ⟨2, [2]⟩).2) ≤ 1 ∧
      countProvide ((addBlock (serviceOfState baseSvc []) ⟨2, [2]⟩).2 ++
        (addBlock (serviceOfState baseSvc
          (applyTrace [] (addBlock (serviceOfState baseSvc []) ⟨2, [2]⟩).2)) ⟨2, [2]⟩).2) ≤ 1) :=
  ⟨addBlock_idempotent.1 hasAllSvc ⟨2, []⟩ rfl rfl rfl,
    addBlock_idempotent.2 baseSvc [] ⟨2, [2]⟩ rfl rfl rfl⟩

/-- `baseSvc` with every identifier locally present. -/
def allLocalSvc : BlockService :=
  { baseSvc with getRes := fun c => GetOutcome.found ⟨c, [c]⟩ }

/-- C7 (counterexample): on a `getBlocks` call whose every identifier is
resolved by the local store (both blocks are emitted from local hits), the
fetch-provider closure is nevertheless invoked — `fetch := fetchFactory()`
runs before the `len(misses) == 0` check — so a Session\x27s lazy
initialization would be triggered, contrary to the claim. -/
theorem getBlocks_factory_called_despite_local_hits :
    (getBlocks allLocalSvc [1, 2]).emitted = [⟨1, [1]⟩, ⟨2, [2]⟩] ∧
    Event.fetchFactoryCall ∈ (getBlocks allLocalSvc [1, 2]).trace := by
  constructor
  · rfl
  · decide

/-- C7 (amended): `getBlocks` always invokes the fetch-provider closure
after the local phase, but when every validated identifier is found locally
no batched network fetch is issued and the stream is exactly the local
hits; `getBlock` invokes the closure precisely on a validated identifier
whose local lookup reported not-found. -/
theorem fetch_provider_engagement :
    (∀ (s : BlockService) (ks : List Cid),
      Event.fetchFactoryCall ∈ (getBlocks s ks).trace) ∧
    (∀ (s : BlockService) (ks : List Cid),
      (∀ c ∈ (validatePhase s.allowlist ks).1, isFound (s.getRes c) = true) →
      (getBlocks s ks).emitted =
        (localPhase s (validatePhase s.allowlist ks).1).emitted ∧
      countFetchMany (getBlocks s ks).trace = 0) ∧
    (∀ (s : BlockService) (c : Cid),
      Event.fetchFactoryCall ∈ (getBlock s c).2 ↔
        (s.allowlist c = true ∧ ∃ e, s.getRes c = GetOutcome.notFound e)) := by
  refine ⟨?_, ?_, ?_⟩
  · intro s ks
    simp only [getBlocks]
    split
    · simp
    · split <;> simp
  · intro s ks hall
    have hm : (localPhase s (validatePhase s.allowlist ks).1).misses = [] := by
      rw [localPhase_misses]
      refine List.filter_eq_nil_iff.mpr ?_
      intro c hc
      simp [hall c hc]
    have hge : getBlocks s ks =
        ⟨(localPhase s (validatePhase s.allowlist ks).1).emitted,
          (validatePhase s.allowlist ks).2 ++
            (localPhase s (validatePhase s.allowlist ks).1).trace ++
            [Event.fetchFactoryCall]⟩ := by
      simp [getBlocks, hm]
    constructor
    · rw [hge]
    · rw [hge]
      simp only [countFetchMany, List.countP_append]
      have h1 := countFetchMany_validatePhase s.allowlist ks
      have h2 := countFetchMany_map_storeGet (validatePhase s.allowlist ks).1
      rw [← localPhase_trace s (validatePhase s.allowlist ks).1] at h2
      simp only [countFetchMany] at h1 h2
      rw [h1, h2]
      decide
  · intro s c
    by_cases hv : s.allowlist c = true
    · cases hg : s.getRes c with
      | found b => simp [getBlock, validateCid, hv, hg]
      | fail e => simp [getBlock, validateCid, hv, hg]
      | notFound e =>
          simp only [getBlock, validateCid, hv, if_true, hg]
          constructor
          · intro _
            exact ⟨trivial, e, rfl⟩
          · intro _
            repeat' split
            all_goals simp
    · have hv2 : s.allowlist c = false := by
        simpa using hv
      simp [getBlock, validateCid, hv2]

theorem fetch_provider_engagement_witness :
    (getBlocks allLocalSvc [3, 4]).emitted =
      (localPhase allLocalSvc (validatePhase allLocalSvc.allowlist [3, 4]).1).emitted ∧
    countFetchMany (getBlocks allLocalSvc [3, 4]).trace = 0 :=
  fetch_provider_engagement.2.1 allLocalSvc [3, 4] (by decide)

end BoxoBlockservice
